import Mathlib

/-!
# modbus_ex: word packing and typed decoding

A shallow embedding of `src/main.cpp`.

Platform conventions used throughout (the ones of the usual x86-64 / AArch64
Linux targets): `int` and `std::int32_t` are 32-bit two's complement,
`std::size_t` is 64 bits wide, objects are stored least-significant byte first,
and `std::float_t` is IEEE-754 binary32.  Signed arithmetic that leaves the
`int` range wraps around modulo `2^32`.

* a `std::uint32_t` / `std::uint16_t` / `std::uint8_t` is a `Nat` (below `2^w`);
* an `int` / `std::int32_t` is an `Int`;
* a `std::float_t` is represented by its binary32 bit pattern;
* the object representation of a value is a list of bytes;
* behaviour the language leaves undefined (reading past the end of a vector,
  shifting an `int` by 32 or more) is the result `none`;
* a loop whose exit test is `!=` on iterators is run with a fuel counter.
-/

namespace ModbusEx

/-! ## Machine integers -/

/-- Number of values of a `std::size_t`. -/
def SIZE_MOD : Nat := 18446744073709551616

/-- Wrap an integer into the range of `int` (two's complement, 32 bits). -/
def wrapInt32 (x : Int) : Int := (x + 2147483648) % 4294967296 - 2147483648

/-- Conversion of an `int` to `std::uint32_t` (reduction modulo `2^32`). -/
def toUInt32 (x : Int) : Nat := (x % 4294967296).toNat

/-- The operator `val << amount` on an `int`; undefined when the amount is not below the width. -/
def shlInt32 (val : Int) (amount : Nat) : Option Int :=
  if amount < 32 then some (wrapInt32 (val * 2 ^ amount)) else none

/-! ## Word Packer (`main`, lines 102-128) -/

/-- The constant `num_bytes` of `main`. -/
def num_bytes : Nat := 4

/-- The constant `bit_shift` of `main`. -/
def bit_shift : Nat := 8

/-- The text written when the sample length is not a multiple of `num_bytes`. -/
def WARNING : String := "WARNING: VALUE ARRAY DOES CONTAINS COMPLETE VALUES\n"

/-- The lambda handed to `std::accumulate` (lines 123-126).  The captured
`shift_multiplier` is passed in and its value after the post-decrement is
passed out next to the returned sum. -/
def packLambda (shift_multiplier : Nat) (acc val : Int) : Option (Int × Nat) :=
  match shlInt32 val ((bit_shift * shift_multiplier) % SIZE_MOD) with
  | some shifted =>
      some (wrapInt32 (acc + shifted), (shift_multiplier + SIZE_MOD - 1) % SIZE_MOD)
  | none => none

/-- The call `std::accumulate(first, first + count, init, op)` over the vector
`values_vect`, iterators being indices; `op` is `packLambda`, whose captured
counter is threaded through.  Dereferencing an index outside the vector is
undefined. -/
def accumulate (values_vect : List Int) (first : Nat) :
    Nat → Int → Nat → Option (Int × Nat)
  | 0, init, shift_multiplier => some (init, shift_multiplier)
  | count + 1, init, shift_multiplier =>
      match values_vect[first]? with
      | none => none
      | some val =>
          match packLambda shift_multiplier init val with
          | none => none
          | some (acc, sm) => accumulate values_vect (first + 1) count acc sm

/-- The packing loop (lines 118-128): `val_it` runs from its start in steps of
`num_bytes` until it equals `end_it`; each round appends one word to
`modbus_response`.  `none` when the fuel runs out or a round is undefined. -/
def packLoop (values_vect : List Int) (end_it : Nat) :
    Nat → Nat → List Nat → Option (List Nat)
  | 0, _, _ => none
  | fuel + 1, val_it, modbus_response =>
      if val_it ≠ end_it then
        match accumulate values_vect val_it num_bytes 0 (num_bytes - 1) with
        | none => none
        | some (acc, _) =>
            packLoop values_vect end_it fuel (val_it + num_bytes)
              (modbus_response ++ [toUInt32 acc])
      else some modbus_response

/-- What the packing part of `main` produces. -/
structure PackOutput where
  /-- Lines written to standard output before the loop. -/
  stdout : List String
  /-- The field `modbus_data.modbus_response` after the loop. -/
  modbus_response : List Nat
  deriving DecidableEq, Repr

/-- Lines 107-128 of `main`, for an arbitrary `values_vect`. -/
def wordPacker (fuel : Nat) (values_vect : List Int) : Option PackOutput :=
  let end_it := values_vect.length - values_vect.length % num_bytes
  let stdout := if end_it ≠ values_vect.length then [WARNING] else []
  match packLoop values_vect end_it fuel 0 [] with
  | none => none
  | some modbus_response => some ⟨stdout, modbus_response⟩

/-- The sample data of `main` (lines 102-103): the integers 1 to 20. -/
def sample_values : List Int := (List.range 20).map (fun i => (i : Int) + 1)

/-! ## Typed Decoder (lines 12-68 and 147-150) -/

/-- The constant `DataType::FORMAT_UINT8`. -/
def FORMAT_UINT8 : String := "u8"

/-- The constant `DataType::FORMAT_UINT16`. -/
def FORMAT_UINT16 : String := "u16"

/-- The constant `DataType::FORMAT_UINT32`. -/
def FORMAT_UINT32 : String := "u32"

/-- The constant `DataType::FORMAT_SINT32`. -/
def FORMAT_SINT32 : String := "s32"

/-- The constant `DataType::FORMAT_FLOAT`. -/
def FORMAT_FLOAT : String := "f32"

/-- The struct `Register`: an encoding tag and a 32-bit word. -/
structure Register where
  data_type : String
  address : Nat
  deriving DecidableEq, Repr

/-- The variant `converted_value_t`, one constructor per alternative, in the
order of the declaration.  A `std::float_t` is held as its binary32 bit
pattern. -/
inductive converted_value_t where
  | uint8 (value : Nat)
  | uint16 (value : Nat)
  | uint32 (value : Nat)
  | int32 (value : Int)
  | float (bits : Nat)
  deriving DecidableEq, Repr

/-- Object representation of an unsigned integer in `size` bytes, lowest byte first. -/
def objectBytes : Nat → Nat → List Nat
  | 0, _ => []
  | size + 1, x => x % 256 :: objectBytes size (x / 256)

/-- The unsigned integer whose object representation is the given bytes. -/
def objectValue : List Nat → Nat
  | [] => 0
  | b :: bs => b + 256 * objectValue bs

/-- The signed 32-bit integer whose object representation is the given bytes. -/
def objectInt32 (bytes : List Nat) : Int :=
  if objectValue bytes < 2147483648 then (objectValue bytes : Int)
  else (objectValue bytes : Int) - 4294967296

/-- The call `std::memcpy(dest, src, count)` on object representations: the
first `count` bytes of `dest` are replaced by those of `src`. -/
def memcpy (dest src : List Nat) (count : Nat) : List Nat :=
  src.take count ++ dest.drop count

/-- The template `fromBytesToValue<T>` (lines 35-39); `sizeofT` is `sizeof(T)`,
`value` the object representation of the destination, and the result is the
destination afterwards. -/
def fromBytesToValue (sizeofT : Nat) (value : List Nat) (input : Nat) : List Nat :=
  memcpy value (objectBytes 4 input) sizeofT

/-- The closure registered for `FORMAT_UINT32` (line 43). -/
def convert_uint32 (addr : Nat) : converted_value_t :=
  converted_value_t.uint32 addr

/-- The closure registered for `FORMAT_SINT32` (lines 45-49). -/
def convert_sint32 (addr : Nat) : converted_value_t :=
  let value := List.replicate 4 0
  let value := fromBytesToValue 4 value addr
  converted_value_t.int32 (objectInt32 value)

/-- The closure registered for `FORMAT_FLOAT` (lines 51-55). -/
def convert_float (addr : Nat) : converted_value_t :=
  let value := List.replicate 4 0
  let value := fromBytesToValue 4 value addr
  converted_value_t.float (objectValue value)

/-- The closure registered for `FORMAT_UINT8` (lines 57-61). -/
def convert_uint8 (addr : Nat) : converted_value_t :=
  let value := List.replicate 1 0
  let value := fromBytesToValue 1 value (addr &&& 0x000000FF)
  converted_value_t.uint8 (objectValue value)

/-- The closure registered for `FORMAT_UINT16` (lines 63-67). -/
def convert_uint16 (addr : Nat) : converted_value_t :=
  let value := List.replicate 2 0
  let value := fromBytesToValue 2 value (((addr &&& 0x0000FFFF) <<< 16) % 4294967296)
  converted_value_t.uint16 (objectValue value)

/-- A `std::function<converted_value_t(std::uint32_t)>`; `none` is the empty one. -/
abbrev conversion_fn := Option (Nat → converted_value_t)

/-- A `std::unordered_map` from tag to conversion, as an association list. -/
abbrev ConversionMap := List (String × conversion_fn)

/-- The global `conversion_map` as initialised (lines 41-68). -/
def conversion_map : ConversionMap :=
  [ (FORMAT_UINT32, some convert_uint32),
    (FORMAT_SINT32, some convert_sint32),
    (FORMAT_FLOAT, some convert_float),
    (FORMAT_UINT8, some convert_uint8),
    (FORMAT_UINT16, some convert_uint16) ]

/-- The call `map[key]` of `std::unordered_map::operator[]`: the mapped value,
and the map afterwards; a key that is absent is first inserted with a
value-initialised (empty) `std::function`. -/
def mapIndex (map : ConversionMap) (key : String) : conversion_fn × ConversionMap :=
  match map.lookup key with
  | some f => (f, map)
  | none => (none, map ++ [(key, none)])

/-- What a call can throw. -/
inductive Exception where
  /-- Thrown by `std::function::operator()` on an empty function. -/
  | bad_function_call
  deriving DecidableEq, Repr

/-- The call `f(arg)` of a `std::function`. -/
def callFunction (f : conversion_fn) (arg : Nat) : Except Exception converted_value_t :=
  match f with
  | some g => Except.ok (g arg)
  | none => Except.error Exception.bad_function_call

/-- The decode step, the lambda of line 150:
`conversion_map[reg_val.data_type](reg_val.address)`.  Returns the value or
the exception thrown, and the dispatch table afterwards. -/
def decode (map : ConversionMap) (reg_val : Register) :
    Except Exception converted_value_t × ConversionMap :=
  let (f, map) := mapIndex map reg_val.data_type
  (callFunction f reg_val.address, map)

/-- The initialiser of `registers` (lines 139-145): the fixed tag order paired
with `modbus_response[0]` to `modbus_response[4]`; indexing past the end of
the vector is undefined. -/
def registers (modbus_response : List Nat) : Option (List Register) :=
  match modbus_response[0]?, modbus_response[1]?, modbus_response[2]?,
      modbus_response[3]?, modbus_response[4]? with
  | some r0, some r1, some r2, some r3, some r4 =>
      some [⟨FORMAT_UINT8, r0⟩, ⟨FORMAT_UINT16, r1⟩, ⟨FORMAT_UINT32, r2⟩,
        ⟨FORMAT_SINT32, r3⟩, ⟨FORMAT_FLOAT, r4⟩]
  | _, _, _, _, _ => none

/-- The call `std::transform` of lines 148-150: the decode step runs on each
register in order and its value is appended to `converted_values`; an
exception ends the pass.  The dispatch table is threaded through. -/
def transform (map : ConversionMap) :
    List Register → List converted_value_t →
      Except Exception (List converted_value_t) × ConversionMap
  | [], converted_values => (Except.ok converted_values, map)
  | reg_val :: rest, converted_values =>
      match decode map reg_val with
      | (Except.ok value, map2) => transform map2 rest (converted_values ++ [value])
      | (Except.error e, map2) => (Except.error e, map2)

/-- The part of `main` from the packing to the decoding (lines 105-150), for
an arbitrary `values_vect`: pack, build `registers`, run `std::transform`
against the global `conversion_map`.  Returns `converted_values` or the
exception thrown, and the dispatch table afterwards; `none` when a step is
undefined or the fuel runs out. -/
def mainDecode (fuel : Nat) (values_vect : List Int) :
    Option (Except Exception (List converted_value_t) × ConversionMap) :=
  match wordPacker fuel values_vect with
  | none => none
  | some out =>
      match registers out.modbus_response with
      | none => none
      | some regs => some (transform conversion_map regs [])

/-- The dispatch table left by a run of decode steps, one per register in
order, each step starting from the table the step before left (whatever a
step returned or threw). -/
def decodeSteps (map : ConversionMap) : List Register → ConversionMap
  | [] => map
  | reg_val :: rest => decodeSteps (decode map reg_val).2 rest

/-! ## IEEE-754 binary32 -/

/-- The rational number denoted by a binary32 bit pattern; `none` for the
infinities and NaNs. -/
def binary32Value (bits : Nat) : Option ℚ :=
  let sign : ℚ := if bits / 2147483648 % 2 = 1 then -1 else 1
  let exponent := bits / 8388608 % 256
  let fraction := bits % 8388608
  if exponent = 255 then none
  else if exponent = 0 then some (sign * (fraction : ℚ) * (2 : ℚ) ^ (-149 : Int))
  else some (sign * ((8388608 + fraction : Nat) : ℚ) * (2 : ℚ) ^ ((exponent : Int) - 150))

/-! ## Reference functions for the packer -/

/-- The word of one group by the big-endian formula, reduced modulo `2^32`:
the first element in the top byte, the last in the bottom byte. -/
def packWord (e0 e1 e2 e3 : Int) : Nat :=
  toUInt32 (e0 * 16777216 + e1 * 65536 + e2 * 256 + e3)

/-- Reference packer: one `packWord` per complete group of four, in order; an
incomplete trailing group gives nothing. -/
def packGroups : List Int → List Nat
  | e0 :: e1 :: e2 :: e3 :: rest => packWord e0 e1 e2 e3 :: packGroups rest
  | _ => []

/-- The elements of a sequence are bytes. -/
def AllBytes (values : List Int) : Prop := ∀ e ∈ values, 0 ≤ e ∧ e ≤ 255

/-- The four bytes of a word, most significant first:
`(w >> 24) & 0xFF`, `(w >> 16) & 0xFF`, `(w >> 8) & 0xFF`, `w & 0xFF`. -/
def unpackWord (w : Nat) : List Int :=
  [((w >>> 24) &&& 0xFF : Nat), ((w >>> 16) &&& 0xFF : Nat), ((w >>> 8) &&& 0xFF : Nat),
    (w &&& 0xFF : Nat)]

/-- The bytes of a sequence of words, concatenated in word order. -/
def unpackWords : List Nat → List Int
  | [] => []
  | w :: ws => unpackWord w ++ unpackWords ws

/-- The word of one group by bitwise OR of the shifted elements. -/
def orWord (e0 e1 e2 e3 : Int) : Nat :=
  (e0.toNat <<< 24) ||| (e1.toNat <<< 16) ||| (e2.toNat <<< 8) ||| e3.toNat

/-! ## Lemmas on the packer -/

theorem accumulate_group (values_vect : List Int) (i : Nat) (e0 e1 e2 e3 : Int)
    (h0 : values_vect[i]? = some e0) (h1 : values_vect[i + 1]? = some e1)
    (h2 : values_vect[i + 1 + 1]? = some e2) (h3 : values_vect[i + 1 + 1 + 1]? = some e3) :
    ∃ acc sm, accumulate values_vect i num_bytes 0 (num_bytes - 1) = some (acc, sm) ∧
      toUInt32 acc = packWord e0 e1 e2 e3 := by
  have h : accumulate values_vect i num_bytes 0 (num_bytes - 1) =
      some (wrapInt32 (wrapInt32 (wrapInt32 (wrapInt32 (0 + wrapInt32 (e0 * 2 ^ 24))
        + wrapInt32 (e1 * 2 ^ 16)) + wrapInt32 (e2 * 2 ^ 8)) + wrapInt32 (e3 * 2 ^ 0)),
        SIZE_MOD - 1) := by
    simp [accumulate, num_bytes, h0, h1, h2, h3, packLambda, shlInt32, bit_shift, SIZE_MOD]
  refine ⟨_, _, h, ?_⟩
  simp only [toUInt32, packWord, wrapInt32]
  congr 1
  omega

theorem packGroups_short (l : List Int) (h : l.length < 4) : packGroups l = [] := by
  match l, h with
  | [], _ => rfl
  | [_], _ => rfl
  | [_, _], _ => rfl
  | [_, _, _], _ => rfl
  | _ :: _ :: _ :: _ :: rest, h => simp only [List.length_cons] at h; omega

theorem packGroups_append (a b : List Int) (h : a.length % 4 = 0) :
    packGroups (a ++ b) = packGroups a ++ packGroups b := by
  induction a using packGroups.induct with
  | case1 e0 e1 e2 e3 rest ih =>
      have hr : rest.length % 4 = 0 := by
        simp only [List.length_cons] at h
        omega
      simp [packGroups, ih hr]
  | case2 l hl =>
      match l, hl, h with
      | [], _, _ => simp [packGroups]
      | [_], _, h => simp at h
      | [_, _], _, h => simp at h
      | [_, _, _], _, h => simp at h
      | e0 :: e1 :: e2 :: e3 :: rest, hl, _ => exact absurd rfl (hl e0 e1 e2 e3 rest)

theorem packGroups_length (values : List Int) :
    (packGroups values).length = values.length / 4 := by
  induction values using packGroups.induct with
  | case1 e0 e1 e2 e3 rest ih =>
      simp only [packGroups, List.length_cons, ih]
      omega
  | case2 l h =>
      have hl : l.length < 4 := by
        match l, h with
        | [], _ => simp
        | [_], _ => simp
        | [_, _], _ => simp
        | [_, _, _], _ => simp
        | e0 :: e1 :: e2 :: e3 :: rest, h => exact absurd rfl (h e0 e1 e2 e3 rest)
      rw [packGroups_short l hl]
      simp; omega

theorem packGroups_take (values : List Int) :
    packGroups (values.take (values.length - values.length % 4)) = packGroups values := by
  have hsplit := List.take_append_drop (values.length - values.length % 4) values
  have hlen : (values.take (values.length - values.length % 4)).length % 4 = 0 := by
    rw [List.length_take]; omega
  have hshort : (values.drop (values.length - values.length % 4)).length < 4 := by
    rw [List.length_drop]; omega
  have happ := packGroups_append _ (values.drop (values.length - values.length % 4)) hlen
  rw [hsplit, packGroups_short _ hshort, List.append_nil] at happ
  exact happ.symm

theorem packLoop_groups (values_vect : List Int) (end_it : Nat) :
    ∀ (fuel val_it : Nat) (modbus_response : List Nat) (g r : List Int),
      values_vect.drop val_it = g ++ r → val_it + g.length = end_it →
      g.length % 4 = 0 → g.length / 4 < fuel →
      packLoop values_vect end_it fuel val_it modbus_response
        = some (modbus_response ++ packGroups g) := by
  intro fuel
  induction fuel with
  | zero => intro _ _ _ _ _ _ _ h; omega
  | succ fuel ih =>
      intro val_it modbus_response g r hdrop hend hmod hfuel
      match g, hdrop, hend, hmod, hfuel with
      | [], _, hend, _, _ =>
          simp only [List.length_nil, Nat.add_zero] at hend
          simp [packLoop, hend, packGroups]
      | [_], _, _, hmod, _ => simp at hmod
      | [_, _], _, _, hmod, _ => simp at hmod
      | [_, _, _], _, _, hmod, _ => simp at hmod
      | e0 :: e1 :: e2 :: e3 :: g', hdrop, hend, hmod, hfuel =>
          simp only [List.length_cons] at hend hmod hfuel
          have hne : val_it ≠ end_it := by omega
          have hget : ∀ k, values_vect[val_it + k]? = (e0 :: e1 :: e2 :: e3 :: (g' ++ r))[k]? := by
            intro k
            rw [← List.getElem?_drop, hdrop]
            rfl
          have h0 : values_vect[val_it]? = some e0 := by simpa using hget 0
          have h1 : values_vect[val_it + 1]? = some e1 := by simpa using hget 1
          have h2 : values_vect[val_it + 1 + 1]? = some e2 := by
            simpa [Nat.add_assoc] using hget 2
          have h3 : values_vect[val_it + 1 + 1 + 1]? = some e3 := by
            simpa [Nat.add_assoc] using hget 3
          obtain ⟨acc, sm, hacc, hword⟩ := accumulate_group values_vect val_it e0 e1 e2 e3 h0 h1 h2 h3
          have hdrop' : values_vect.drop (val_it + num_bytes) = g' ++ r := by
            rw [← List.drop_drop, hdrop]
            rfl
          have hrec := ih (val_it + num_bytes) (modbus_response ++ [toUInt32 acc]) g' r hdrop'
            (by simp only [num_bytes]; omega) (by omega) (by omega)
          have hstep : packLoop values_vect end_it (fuel + 1) val_it modbus_response
              = packLoop values_vect end_it fuel (val_it + num_bytes)
                  (modbus_response ++ [toUInt32 acc]) := by
            simp only [packLoop, hne, ne_eq, not_false_eq_true, if_true, hacc]
          rw [hstep, hrec, hword, packGroups, List.append_assoc]
          rfl

/-- With enough fuel the packing part of `main` returns: the warning is written
exactly when the length is not a multiple of four, and the words are those of
the reference packer. -/
theorem wordPacker_eq (fuel : Nat) (values_vect : List Int)
    (hfuel : values_vect.length / 4 < fuel) :
    wordPacker fuel values_vect =
      some ⟨if values_vect.length % 4 ≠ 0 then [WARNING] else [], packGroups values_vect⟩ := by
  have hsplit := List.take_append_drop (values_vect.length - values_vect.length % 4) values_vect
  have hlen : (values_vect.take (values_vect.length - values_vect.length % 4)).length
      = values_vect.length - values_vect.length % 4 := by
    rw [List.length_take]; omega
  have hloop := packLoop_groups values_vect (values_vect.length - values_vect.length % 4) fuel 0 []
    (values_vect.take (values_vect.length - values_vect.length % 4))
    (values_vect.drop (values_vect.length - values_vect.length % 4))
    (by simp) (by omega) (by omega) (by omega)
  rw [packGroups_take] at hloop
  have hcond : (values_vect.length - values_vect.length % 4 ≠ values_vect.length)
      ↔ values_vect.length % 4 ≠ 0 := by omega
  simp only [wordPacker, num_bytes, hloop, List.nil_append]
  by_cases hm : values_vect.length % 4 = 0
  · simp [hm]
  · have : ¬ (values_vect.length - values_vect.length % 4 = values_vect.length) := by omega
    simp [hm, this]

theorem packGroups_getElem_opt (values : List Int) :
    ∀ k, k < values.length / 4 →
      (packGroups values)[k]? = some (packWord (values.getD (4 * k) 0)
        (values.getD (4 * k + 1) 0) (values.getD (4 * k + 2) 0) (values.getD (4 * k + 3) 0)) := by
  induction values using packGroups.induct with
  | case1 e0 e1 e2 e3 rest ih =>
      intro k hk
      cases k with
      | zero => simp [packGroups]
      | succ k =>
          have hk' : k < rest.length / 4 := by
            simp only [List.length_cons] at hk
            omega
          have e : ∀ j, 4 * (k + 1) + j = (4 * k + j) + 1 + 1 + 1 + 1 := by intro j; omega
          have e' : 4 * (k + 1) = (4 * k) + 1 + 1 + 1 + 1 := by omega
          rw [e 1, e 2, e 3, e']
          simp only [packGroups, List.getElem?_cons_succ, List.getD_cons_succ]
          exact ih k hk'
  | case2 l h =>
      intro k hk
      have hl : l.length < 4 := by
        match l, h with
        | [], _ => simp
        | [_], _ => simp
        | [_, _], _ => simp
        | [_, _, _], _ => simp
        | e0 :: e1 :: e2 :: e3 :: rest, h => exact absurd rfl (h e0 e1 e2 e3 rest)
      omega

theorem packWord_bytes (e0 e1 e2 e3 : Int) (h0 : 0 ≤ e0 ∧ e0 ≤ 255) (h1 : 0 ≤ e1 ∧ e1 ≤ 255)
    (h2 : 0 ≤ e2 ∧ e2 ≤ 255) (h3 : 0 ≤ e3 ∧ e3 ≤ 255) :
    (packWord e0 e1 e2 e3 : Int) = e0 * 2 ^ 24 + e1 * 2 ^ 16 + e2 * 2 ^ 8 + e3 := by
  simp only [packWord, toUInt32]
  omega

theorem getD_bytes (values : List Int) (h : AllBytes values) (i : Nat) :
    0 ≤ values.getD i 0 ∧ values.getD i 0 ≤ 255 := by
  by_cases hi : i < values.length
  · rw [List.getD_eq_getElem _ _ hi]
    exact h _ (List.getElem_mem hi)
  · rw [List.getD_eq_default _ _ (by omega)]
    omega

/-! ## Word Packer: claims -/

/-- C1: for a sequence of bytes whose length `n` is a multiple of 4, the packer
(given fuel for its `n/4` rounds) returns exactly `n/4` words, and for every
`k < n/4` the `k`-th word is `e[4k]*2^24 + e[4k+1]*2^16 + e[4k+2]*2^8 + e[4k+3]`,
also when `e[4k] ≥ 128` and the `int` accumulator is negative. -/
theorem C1_packer_full_groups (fuel : Nat) (values : List Int)
    (hbytes : AllBytes values) (hlen : values.length % 4 = 0)
    (hfuel : values.length / 4 < fuel) :
    ∃ words, wordPacker fuel values = some ⟨[], words⟩ ∧
      words.length = values.length / 4 ∧
      ∀ k, k < values.length / 4 →
        ∃ w, words[k]? = some w ∧
          (w : Int) = values.getD (4 * k) 0 * 2 ^ 24 + values.getD (4 * k + 1) 0 * 2 ^ 16
            + values.getD (4 * k + 2) 0 * 2 ^ 8 + values.getD (4 * k + 3) 0 := by
  refine ⟨packGroups values, ?_, packGroups_length values, ?_⟩
  · rw [wordPacker_eq fuel values hfuel]
    simp [hlen]
  · intro k hk
    exact ⟨_, packGroups_getElem_opt values k hk,
      packWord_bytes _ _ _ _ (getD_bytes values hbytes _) (getD_bytes values hbytes _)
        (getD_bytes values hbytes _) (getD_bytes values hbytes _)⟩

/-- C1 at the two groups `200,1,2,3` and `4,5,6,7`; the first has a top byte of
at least 128, its `int` sum is negative, and it packs to `0xC8010203`. -/
theorem C1_packer_full_groups_witness :
    accumulate [200, 1, 2, 3, 4, 5, 6, 7] 0 num_bytes 0 (num_bytes - 1)
      = some (-939458045, SIZE_MOD - 1) ∧
    wordPacker 3 [200, 1, 2, 3, 4, 5, 6, 7] = some ⟨[], [0xC8010203, 0x04050607]⟩ ∧
    AllBytes [200, 1, 2, 3, 4, 5, 6, 7] ∧
    ∃ words, wordPacker 3 [200, 1, 2, 3, 4, 5, 6, 7] = some ⟨[], words⟩ ∧
      words.length = [200, 1, 2, 3, 4, 5, 6, (7 : Int)].length / 4 ∧
      ∀ k, k < [200, 1, 2, 3, 4, 5, 6, (7 : Int)].length / 4 →
        ∃ w, words[k]? = some w ∧
          (w : Int) = [200, 1, 2, 3, 4, 5, 6, (7 : Int)].getD (4 * k) 0 * 2 ^ 24
            + [200, 1, 2, 3, 4, 5, 6, (7 : Int)].getD (4 * k + 1) 0 * 2 ^ 16
            + [200, 1, 2, 3, 4, 5, 6, (7 : Int)].getD (4 * k + 2) 0 * 2 ^ 8
            + [200, 1, 2, 3, 4, 5, 6, (7 : Int)].getD (4 * k + 3) 0 :=
  ⟨by decide, by decide, by unfold AllBytes; decide,
    C1_packer_full_groups 3 [200, 1, 2, 3, 4, 5, 6, 7] (by unfold AllBytes; decide)
      (by decide) (by decide)⟩

/-- C2: for a sequence of any length `n` the packer (given fuel for its
`floor(n/4)` rounds) returns exactly `floor(n/4)` words, and they are the words
it returns for the first `4*floor(n/4)` elements alone: the trailing `n mod 4`
elements change nothing and give no partial word. -/
theorem C2_packer_truncation (fuel : Nat) (values : List Int)
    (hfuel : values.length / 4 < fuel) :
    ∃ out, wordPacker fuel values = some out ∧
      out.modbus_response.length = values.length / 4 ∧
      wordPacker fuel (values.take (4 * (values.length / 4))) = some ⟨[], out.modbus_response⟩ := by
  refine ⟨_, wordPacker_eq fuel values hfuel, packGroups_length values, ?_⟩
  have hidx : 4 * (values.length / 4) = values.length - values.length % 4 := by omega
  have hlen : (values.take (4 * (values.length / 4))).length = 4 * (values.length / 4) := by
    rw [List.length_take]; omega
  rw [wordPacker_eq fuel _ (by rw [hlen]; omega), hlen]
  simp only [Nat.mul_mod_right, ne_eq, not_true_eq_false, if_false]
  rw [hidx, packGroups_take]

/-- C2 at `[1,2,3,4,5]`: exactly the one word `0x01020304`, the same as for `[1,2,3,4]`. -/
theorem C2_packer_truncation_witness :
    wordPacker 2 [1, 2, 3, 4, 5] = some ⟨[WARNING], [0x01020304]⟩ ∧
    [1, 2, 3, 4, (5 : Int)].length / 4 < 2 ∧
    ∃ out, wordPacker 2 [1, 2, 3, 4, 5] = some out ∧
      out.modbus_response.length = [1, 2, 3, 4, (5 : Int)].length / 4 ∧
      wordPacker 2 ([1, 2, 3, 4, (5 : Int)].take (4 * ([1, 2, 3, 4, (5 : Int)].length / 4)))
        = some ⟨[], out.modbus_response⟩ :=
  ⟨by decide, by decide, C2_packer_truncation 2 [1, 2, 3, 4, 5] (by decide)⟩

/-- C8: packing `[1,2,3,4,5,6,7,8]` (with fuel for the two rounds) returns
exactly the two words `0x01020304`, `0x05060708`, in that order, and no warning. -/
theorem C8_packer_example (fuel : Nat) (hfuel : 2 < fuel) :
    wordPacker fuel [1, 2, 3, 4, 5, 6, 7, 8] = some ⟨[], [0x01020304, 0x05060708]⟩ := by
  rw [wordPacker_eq fuel _ (by simpa using hfuel)]
  decide

/-- C8 with fuel 3. -/
theorem C8_packer_example_witness :
    2 < 3 ∧ wordPacker 3 [1, 2, 3, 4, 5, 6, 7, 8] = some ⟨[], [0x01020304, 0x05060708]⟩ :=
  ⟨by decide, C8_packer_example 3 (by decide)⟩

/-- C9: for every sequence the packer (given fuel for its rounds) returns, its
output holds the truncation warning if and only if the length is not a
multiple of 4, and with or without the warning every complete group is packed:
there are `floor(n/4)` words and the `k`-th is the word of elements `4k..4k+3`. -/
theorem C9_truncation_warning (fuel : Nat) (values : List Int)
    (hfuel : values.length / 4 < fuel) :
    ∃ out, wordPacker fuel values = some out ∧
      (WARNING ∈ out.stdout ↔ values.length % 4 ≠ 0) ∧
      out.modbus_response.length = values.length / 4 ∧
      ∀ k, k < values.length / 4 →
        out.modbus_response[k]? = some (packWord (values.getD (4 * k) 0)
          (values.getD (4 * k + 1) 0) (values.getD (4 * k + 2) 0) (values.getD (4 * k + 3) 0)) := by
  refine ⟨_, wordPacker_eq fuel values hfuel, ?_, packGroups_length values,
    packGroups_getElem_opt values⟩
  by_cases hm : values.length % 4 = 0
  · simp [hm]
  · simp [hm]

/-- C9 at `[1,2,3,4,5,6]`: the warning is written and the one complete group is packed. -/
theorem C9_truncation_warning_witness :
    wordPacker 2 [1, 2, 3, 4, 5, 6] = some ⟨[WARNING], [0x01020304]⟩ ∧
    [1, 2, 3, 4, 5, (6 : Int)].length / 4 < 2 ∧
    ∃ out, wordPacker 2 [1, 2, 3, 4, 5, 6] = some out ∧
      (WARNING ∈ out.stdout ↔ [1, 2, 3, 4, 5, (6 : Int)].length % 4 ≠ 0) ∧
      out.modbus_response.length = [1, 2, 3, 4, 5, (6 : Int)].length / 4 ∧
      ∀ k, k < [1, 2, 3, 4, 5, (6 : Int)].length / 4 →
        out.modbus_response[k]? = some (packWord ([1, 2, 3, 4, 5, (6 : Int)].getD (4 * k) 0)
          ([1, 2, 3, 4, 5, (6 : Int)].getD (4 * k + 1) 0)
          ([1, 2, 3, 4, 5, (6 : Int)].getD (4 * k + 2) 0)
          ([1, 2, 3, 4, 5, (6 : Int)].getD (4 * k + 3) 0)) :=
  ⟨by decide, by decide, C9_truncation_warning 2 [1, 2, 3, 4, 5, 6] (by decide)⟩

/-! ## Lemmas on the decoder -/

theorem objectValue_copy4 (w : Nat) (hw : w < 4294967296) :
    objectValue (fromBytesToValue 4 (List.replicate 4 0) w) = w := by
  simp only [fromBytesToValue, memcpy, objectBytes, List.take, List.replicate, List.drop,
    List.append_nil, objectValue]
  omega

theorem objectValue_copy2 (x : Nat) :
    objectValue (fromBytesToValue 2 (List.replicate 2 0) x) = x % 65536 := by
  simp only [fromBytesToValue, memcpy, objectBytes, List.take, List.replicate, List.drop,
    List.append_nil, objectValue]
  omega

theorem objectValue_copy1 (x : Nat) :
    objectValue (fromBytesToValue 1 (List.replicate 1 0) x) = x % 256 := by
  simp only [fromBytesToValue, memcpy, objectBytes, List.take, List.replicate, List.drop,
    List.append_nil, objectValue]
  omega

theorem land_low8 (w : Nat) : w &&& 0x000000FF = w % 256 :=
  Nat.and_pow_two_sub_one_eq_mod w 8

theorem land_low16 (w : Nat) : w &&& 0x0000FFFF = w % 65536 :=
  Nat.and_pow_two_sub_one_eq_mod w 16

theorem decode_uint32 (w : Nat) :
    decode conversion_map ⟨"u32", w⟩ = (Except.ok (convert_uint32 w), conversion_map) := by
  rfl

theorem decode_sint32 (w : Nat) :
    decode conversion_map ⟨"s32", w⟩ = (Except.ok (convert_sint32 w), conversion_map) := by
  rfl

theorem decode_float (w : Nat) :
    decode conversion_map ⟨"f32", w⟩ = (Except.ok (convert_float w), conversion_map) := by
  rfl

theorem decode_uint8 (w : Nat) :
    decode conversion_map ⟨"u8", w⟩ = (Except.ok (convert_uint8 w), conversion_map) := by
  rfl

theorem decode_uint16 (w : Nat) :
    decode conversion_map ⟨"u16", w⟩ = (Except.ok (convert_uint16 w), conversion_map) := by
  rfl

theorem lookup_unregistered (tag : String)
    (h : tag ∉ ["u8", "u16", "u32", "s32", "f32"]) : conversion_map.lookup tag = none := by
  simp only [List.mem_cons, List.mem_singleton, List.not_mem_nil, or_false, not_or] at h
  obtain ⟨h8, h16, h32, hs, hf⟩ := h
  have b8 : (tag == "u8") = false := by simpa using h8
  have b16 : (tag == "u16") = false := by simpa using h16
  have b32 : (tag == "u32") = false := by simpa using h32
  have bs : (tag == "s32") = false := by simpa using hs
  have bf : (tag == "f32") = false := by simpa using hf
  simp only [conversion_map, List.lookup, FORMAT_UINT8, FORMAT_UINT16, FORMAT_UINT32,
    FORMAT_SINT32, FORMAT_FLOAT, b8, b16, b32, bs, bf]

/-! ## Typed Decoder: claims -/

/-- C3: for every 32-bit word `w`, decoding `w` with the tag "u16" returns the
unsigned 16-bit value 0, which is the low 16 bits of `(w & 0xFFFF) << 16`
taken modulo `2^32`. -/
theorem C3_decode_u16_zero (w : Nat) (_hw : w < 4294967296) :
    (decode conversion_map ⟨"u16", w⟩).1 = Except.ok (converted_value_t.uint16 0) ∧
    (((w &&& 0x0000FFFF) <<< 16) % 4294967296) % 65536 = 0 := by
  have hz : (((w &&& 0x0000FFFF) <<< 16) % 4294967296) % 65536 = 0 := by
    rw [Nat.shiftLeft_eq]
    omega
  refine ⟨?_, hz⟩
  rw [decode_uint16]
  simp only [convert_uint16, objectValue_copy2, hz]

/-- C3 at the word `0x12345678`. -/
theorem C3_decode_u16_zero_witness :
    0x12345678 < 4294967296 ∧
    (decode conversion_map ⟨"u16", 0x12345678⟩).1 = Except.ok (converted_value_t.uint16 0) ∧
    (((0x12345678 &&& 0x0000FFFF) <<< 16) % 4294967296) % 65536 = 0 :=
  ⟨by decide, C3_decode_u16_zero 0x12345678 (by decide)⟩

/-- C4: for every 32-bit word `w`, decoding `w` with the tag "s32" returns the
signed 32-bit value `w` when `w < 2^31` and `w - 2^32` otherwise; converting
that value back to unsigned 32 bits gives `w`; and `0xFFFFFFFF` decodes to -1. -/
theorem C4_decode_s32 (w : Nat) (hw : w < 4294967296) :
    ∃ v : Int, (decode conversion_map ⟨"s32", w⟩).1 = Except.ok (converted_value_t.int32 v) ∧
      v = (if w < 2147483648 then (w : Int) else (w : Int) - 4294967296) ∧
      toUInt32 v = w ∧
      (w = 0xFFFFFFFF → v = -1) := by
  refine ⟨if w < 2147483648 then (w : Int) else (w : Int) - 4294967296, ?_, rfl, ?_, ?_⟩
  · rw [decode_sint32]
    simp only [convert_sint32, objectInt32, objectValue_copy4 w hw]
  · simp only [toUInt32]
    split <;> omega
  · intro h
    subst h
    decide

/-- C4 at the word `0xFFFFFFFF`, which decodes to -1. -/
theorem C4_decode_s32_witness :
    (decode conversion_map ⟨"s32", 0xFFFFFFFF⟩).1 = Except.ok (converted_value_t.int32 (-1)) ∧
    0xFFFFFFFF < 4294967296 ∧
    ∃ v : Int, (decode conversion_map ⟨"s32", 0xFFFFFFFF⟩).1
        = Except.ok (converted_value_t.int32 v) ∧
      v = (if 0xFFFFFFFF < 2147483648 then ((0xFFFFFFFF : Nat) : Int)
            else ((0xFFFFFFFF : Nat) : Int) - 4294967296) ∧
      toUInt32 v = 0xFFFFFFFF ∧
      (0xFFFFFFFF = 0xFFFFFFFF → v = -1) :=
  ⟨by rfl, by decide, C4_decode_s32 0xFFFFFFFF (by decide)⟩

/-- C5: for every 32-bit word `w`, decoding `w` with the tag "f32" returns a
float whose binary32 bit pattern is exactly `w`; for `w = 0x3F800000` that
float is 1.0. -/
theorem C5_decode_f32 (w : Nat) (hw : w < 4294967296) :
    ∃ bits : Nat, (decode conversion_map ⟨"f32", w⟩).1
        = Except.ok (converted_value_t.float bits) ∧
      bits = w ∧
      (w = 0x3F800000 → binary32Value bits = some 1) := by
  refine ⟨w, ?_, rfl, ?_⟩
  · rw [decode_float]
    simp only [convert_float, objectValue_copy4 w hw]
  · intro h
    subst h
    norm_num [binary32Value]

/-- C5 at the word `0x3F800000`, the bit pattern of 1.0. -/
theorem C5_decode_f32_witness :
    0x3F800000 < 4294967296 ∧
    ∃ bits : Nat, (decode conversion_map ⟨"f32", 0x3F800000⟩).1
        = Except.ok (converted_value_t.float bits) ∧
      bits = 0x3F800000 ∧
      (0x3F800000 = 0x3F800000 → binary32Value bits = some 1) :=
  ⟨by decide, C5_decode_f32 0x3F800000 (by decide)⟩

/-- C6: for every 32-bit word and every tag that is not one of "u8", "u16",
"u32", "s32", "f32", the decode step throws (the looked-up entry is an empty
function, so the call raises `bad_function_call`) and returns no value. -/
theorem C6_decode_unknown_tag (w : Nat) (tag : String) (_hw : w < 4294967296)
    (htag : tag ∉ ["u8", "u16", "u32", "s32", "f32"]) :
    (decode conversion_map ⟨tag, w⟩).1 = Except.error Exception.bad_function_call ∧
    ∀ value, (decode conversion_map ⟨tag, w⟩).1 ≠ Except.ok value := by
  have h : (decode conversion_map ⟨tag, w⟩).1 = Except.error Exception.bad_function_call := by
    simp only [decode, mapIndex, lookup_unregistered tag htag, callFunction]
  refine ⟨h, ?_⟩
  intro value hv
  rw [h] at hv
  cases hv

/-- C6 at the tag "unrecognized". -/
theorem C6_decode_unknown_tag_witness :
    7 < 4294967296 ∧ "unrecognized" ∉ ["u8", "u16", "u32", "s32", "f32"] ∧
    (decode conversion_map ⟨"unrecognized", 7⟩).1 = Except.error Exception.bad_function_call ∧
    ∀ value, (decode conversion_map ⟨"unrecognized", 7⟩).1 ≠ Except.ok value :=
  ⟨by decide, by decide, C6_decode_unknown_tag 7 "unrecognized" (by decide) (by decide)⟩

/-- C7: for every 32-bit word `w`, decoding `w` with the tag "u8" returns the
unsigned 8-bit value `w mod 256`; two words with the same low 8 bits decode to
the same value, whatever their upper 24 bits. -/
theorem C7_decode_u8 (w : Nat) (_hw : w < 4294967296) :
    (decode conversion_map ⟨"u8", w⟩).1 = Except.ok (converted_value_t.uint8 (w % 256)) ∧
    ∀ w2, w2 < 4294967296 → w2 % 256 = w % 256 →
      (decode conversion_map ⟨"u8", w2⟩).1 = (decode conversion_map ⟨"u8", w⟩).1 := by
  have h : ∀ x, (decode conversion_map ⟨"u8", x⟩).1
      = Except.ok (converted_value_t.uint8 (x % 256)) := by
    intro x
    rw [decode_uint8]
    simp only [convert_uint8, objectValue_copy1, land_low8, Nat.mod_mod]
  refine ⟨h w, ?_⟩
  intro w2 _ hlow
  rw [h w2, h w, hlow]

/-- C7 at the word `0x12345678`, which decodes to `0x78`. -/
theorem C7_decode_u8_witness :
    (decode conversion_map ⟨"u8", 0x12345678⟩).1 = Except.ok (converted_value_t.uint8 0x78) ∧
    0x12345678 < 4294967296 ∧
    (decode conversion_map ⟨"u8", 0x12345678⟩).1
      = Except.ok (converted_value_t.uint8 (0x12345678 % 256)) ∧
    ∀ w2, w2 < 4294967296 → w2 % 256 = 0x12345678 % 256 →
      (decode conversion_map ⟨"u8", w2⟩).1 = (decode conversion_map ⟨"u8", 0x12345678⟩).1 :=
  ⟨by rfl, by decide, C7_decode_u8 0x12345678 (by decide)⟩

/-- C10: for every 32-bit word `w`, decoding `w` with the tag "u32" returns `w`
itself held in the unsigned 32-bit alternative of the variant, and in none of
the other four alternatives. -/
theorem C10_decode_u32 (w : Nat) (_hw : w < 4294967296) :
    (decode conversion_map ⟨"u32", w⟩).1 = Except.ok (converted_value_t.uint32 w) ∧
    (∀ v, (decode conversion_map ⟨"u32", w⟩).1 ≠ Except.ok (converted_value_t.uint8 v)) ∧
    (∀ v, (decode conversion_map ⟨"u32", w⟩).1 ≠ Except.ok (converted_value_t.uint16 v)) ∧
    (∀ v, (decode conversion_map ⟨"u32", w⟩).1 ≠ Except.ok (converted_value_t.int32 v)) ∧
    (∀ v, (decode conversion_map ⟨"u32", w⟩).1 ≠ Except.ok (converted_value_t.float v)) := by
  have h : (decode conversion_map ⟨"u32", w⟩).1 = Except.ok (converted_value_t.uint32 w) := by
    rw [decode_uint32]
    rfl
  rw [h]
  refine ⟨rfl, ?_, ?_, ?_, ?_⟩ <;> intro v hv <;> cases hv

/-- C10 at the word `0x090A0B0C`. -/
theorem C10_decode_u32_witness :
    0x090A0B0C < 4294967296 ∧
    (decode conversion_map ⟨"u32", 0x090A0B0C⟩).1
      = Except.ok (converted_value_t.uint32 0x090A0B0C) ∧
    (∀ v, (decode conversion_map ⟨"u32", 0x090A0B0C⟩).1
      ≠ Except.ok (converted_value_t.uint8 v)) ∧
    (∀ v, (decode conversion_map ⟨"u32", 0x090A0B0C⟩).1
      ≠ Except.ok (converted_value_t.uint16 v)) ∧
    (∀ v, (decode conversion_map ⟨"u32", 0x090A0B0C⟩).1
      ≠ Except.ok (converted_value_t.int32 v)) ∧
    (∀ v, (decode conversion_map ⟨"u32", 0x090A0B0C⟩).1
      ≠ Except.ok (converted_value_t.float v)) :=
  ⟨by decide, C10_decode_u32 0x090A0B0C (by decide)⟩

/-! ## Further lemmas -/

theorem decode_snd (map : ConversionMap) (reg_val : Register) :
    (decode map reg_val).2 =
      match map.lookup reg_val.data_type with
      | some _ => map
      | none => map ++ [(reg_val.data_type, none)] := by
  simp only [decode, mapIndex]
  split <;> rfl

theorem decode_fst (map : ConversionMap) (reg_val : Register) :
    (decode map reg_val).1 =
      match map.lookup reg_val.data_type with
      | some f => callFunction f reg_val.address
      | none => Except.error Exception.bad_function_call := by
  simp only [decode, mapIndex]
  split <;> rfl

theorem lookup_append_absent (map : ConversionMap) (key key2 : String)
    (h : map.lookup key = none) :
    (map ++ [(key, none)]).lookup key2 =
      match map.lookup key2 with
      | some f => some f
      | none => if key2 = key then some none else none := by
  induction map with
  | nil =>
      by_cases hk : key2 = key
      · simp [List.lookup, hk]
      · have hb : (key2 == key) = false := by simpa using hk
        simp [List.lookup, hk, hb]
  | cons entry rest ih =>
      obtain ⟨k, f⟩ := entry
      by_cases hk : key2 = k
      · subst hk
        simp [List.lookup]
      · have hb : (key2 == k) = false := by simpa using hk
        have hrest : rest.lookup key = none := by
          by_cases hkk : key = k
          · subst hkk
            simp [List.lookup] at h
          · have hbb : (key == k) = false := by simpa using hkk
            simpa [List.lookup, hbb] using h
        simp only [List.cons_append, List.lookup, hb]
        exact ih hrest

/-- A decode step leaves the result of every later decode step as it was. -/
theorem decode_later (map : ConversionMap) (reg_val later : Register) :
    (decode (decode map reg_val).2 later).1 = (decode map later).1 := by
  rw [decode_snd]
  cases h : map.lookup reg_val.data_type with
  | some f => rfl
  | none =>
      simp only [decode_fst]
      rw [lookup_append_absent map reg_val.data_type later.data_type h]
      cases h2 : map.lookup later.data_type with
      | some g => rfl
      | none =>
          by_cases hk : later.data_type = reg_val.data_type
          · simp [hk, callFunction]
          · simp [hk]

/-! ## Typed Decoder: the dispatch table across a decode step -/

/-- C11, as stated, fails: decoding the word 7 with the unregistered tag
"unrecognized" leaves a dispatch table that is not the one before the step
(it has six entries, the table before has five). -/
theorem C11_decode_table_changed :
    (decode conversion_map ⟨"unrecognized", 7⟩).2 ≠ conversion_map ∧
    (decode conversion_map ⟨"unrecognized", 7⟩).2.length = 6 ∧
    conversion_map.length = 5 := by
  refine ⟨?_, rfl, rfl⟩
  intro h
  have hlen := congrArg List.length h
  have h6 : (decode conversion_map ⟨"unrecognized", 7⟩).2.length = 6 := rfl
  have h5 : conversion_map.length = 5 := rfl
  omega

theorem decode_snd_present (map : ConversionMap) (reg_val : Register)
    (h : map.lookup reg_val.data_type ≠ none) : (decode map reg_val).2 = map := by
  rw [decode_snd]
  cases hl : map.lookup reg_val.data_type with
  | some f => rfl
  | none => exact absurd hl h

theorem decode_snd_absent (map : ConversionMap) (reg_val : Register)
    (h : map.lookup reg_val.data_type = none) :
    (decode map reg_val).2 = map ++ [(reg_val.data_type, none)] := by
  rw [decode_snd]
  simp only [h]

theorem lookup_decode_present (map : ConversionMap) (reg_val : Register) (key : String)
    (f : conversion_fn) (h : map.lookup key = some f) :
    (decode map reg_val).2.lookup key = some f := by
  cases hl : map.lookup reg_val.data_type with
  | some g => rw [decode_snd_present map reg_val (by rw [hl]; exact Option.some_ne_none g)]; exact h
  | none =>
      rw [decode_snd_absent map reg_val hl, lookup_append_absent map _ key hl]
      simp only [h]

theorem lookup_decodeSteps_present (steps : List Register) :
    ∀ (map : ConversionMap) (key : String) (f : conversion_fn),
      map.lookup key = some f → (decodeSteps map steps).lookup key = some f := by
  induction steps with
  | nil => intro map key f h; exact h
  | cons reg_val rest ih =>
      intro map key f h
      exact ih _ key f (lookup_decode_present map reg_val key f h)

theorem decodeSteps_later (steps : List Register) :
    ∀ (map : ConversionMap) (later : Register),
      (decode (decodeSteps map steps) later).1 = (decode map later).1 := by
  induction steps with
  | nil => intro map later; rfl
  | cons reg_val rest ih =>
      intro map later
      rw [decodeSteps, ih, decode_later]

theorem lookup_registered (tag : String) (h : tag ∈ ["u8", "u16", "u32", "s32", "f32"]) :
    ∃ f, conversion_map.lookup tag = some (some f) := by
  simp only [List.mem_cons, List.mem_singleton, List.not_mem_nil, or_false] at h
  rcases h with h | h | h | h | h <;> subst h <;> exact ⟨_, rfl⟩

/-- C11, amended: for every dispatch table `map` (the initial one or any other),
every 32-bit word `w` and every tag:
a decode step with a tag that has an entry in the table leaves the table as it
was; with a tag that has no entry it leaves the table before plus one entry,
that tag mapped to an empty function; after the step, and after any run of
decode steps, every later decode step returns what it would have returned on
the table before.  For the global `conversion_map`: a tag outside the five
registered ones has no entry at the start, and a registered tag has an entry
in every table that a run of decode steps leaves, so a decode step with a
registered tag never changes the table. -/
theorem C11_decode_table_amended (map : ConversionMap) (steps : List Register)
    (w : Nat) (tag : String) (_hw : w < 4294967296) :
    (map.lookup tag ≠ none → (decode map ⟨tag, w⟩).2 = map) ∧
    (map.lookup tag = none → (decode map ⟨tag, w⟩).2 = map ++ [(tag, none)]) ∧
    (∀ later : Register,
      (decode (decode map ⟨tag, w⟩).2 later).1 = (decode map later).1) ∧
    (∀ later : Register,
      (decode (decodeSteps map steps) later).1 = (decode map later).1) ∧
    (tag ∉ ["u8", "u16", "u32", "s32", "f32"] →
      conversion_map.lookup tag = none ∧
      (decode conversion_map ⟨tag, w⟩).2 = conversion_map ++ [(tag, none)]) ∧
    (tag ∈ ["u8", "u16", "u32", "s32", "f32"] →
      (decodeSteps conversion_map steps).lookup tag ≠ none ∧
      (decode (decodeSteps conversion_map steps) ⟨tag, w⟩).2
        = decodeSteps conversion_map steps) := by
  refine ⟨decode_snd_present map ⟨tag, w⟩, decode_snd_absent map ⟨tag, w⟩,
    fun later => decode_later map ⟨tag, w⟩ later,
    fun later => decodeSteps_later steps map later, ?_, ?_⟩
  · intro hnot
    exact ⟨lookup_unregistered tag hnot,
      decode_snd_absent conversion_map ⟨tag, w⟩ (lookup_unregistered tag hnot)⟩
  · intro hmem
    obtain ⟨f, hf⟩ := lookup_registered tag hmem
    have hpresent : (decodeSteps conversion_map steps).lookup tag ≠ none := by
      rw [lookup_decodeSteps_present steps conversion_map tag (some f) hf]
      exact Option.some_ne_none _
    exact ⟨hpresent, decode_snd_present _ ⟨tag, w⟩ hpresent⟩

/-- C11 amended, at the unregistered tag "unrecognized" with the word 7: on the
initial table the step adds the entry (six entries after); on the table so
left the same step adds nothing (still six entries); and after the run
"unrecognized", "u8", "unrecognized" every decode step returns what it returns
on the initial table. -/
theorem C11_decode_table_amended_witness :
    7 < 4294967296 ∧
    (decode conversion_map ⟨"unrecognized", 7⟩).2
      = conversion_map ++ [("unrecognized", none)] ∧
    (decode (conversion_map ++ [("unrecognized", none)]) ⟨"unrecognized", 7⟩).2
      = conversion_map ++ [("unrecognized", none)] ∧
    (decode (conversion_map ++ [("unrecognized", none)]) ⟨"unrecognized", 7⟩).2.length = 6 ∧
    (∀ later : Register,
      (decode (decodeSteps conversion_map
        [⟨"unrecognized", 7⟩, ⟨"u8", 0x12345678⟩, ⟨"unrecognized", 9⟩]) later).1
        = (decode conversion_map later).1) ∧
    (decode (decodeSteps conversion_map
        [⟨"unrecognized", 7⟩, ⟨"u8", 0x12345678⟩, ⟨"unrecognized", 9⟩]) ⟨"u8", 7⟩).2
      = decodeSteps conversion_map
        [⟨"unrecognized", 7⟩, ⟨"u8", 0x12345678⟩, ⟨"unrecognized", 9⟩] ∧
    ((conversion_map.lookup "unrecognized" ≠ none →
        (decode conversion_map ⟨"unrecognized", 7⟩).2 = conversion_map) ∧
      (conversion_map.lookup "unrecognized" = none →
        (decode conversion_map ⟨"unrecognized", 7⟩).2
          = conversion_map ++ [("unrecognized", none)]) ∧
      (∀ later : Register,
        (decode (decode conversion_map ⟨"unrecognized", 7⟩).2 later).1
          = (decode conversion_map later).1) ∧
      (∀ later : Register,
        (decode (decodeSteps conversion_map [⟨"unrecognized", 7⟩]) later).1
          = (decode conversion_map later).1) ∧
      ("unrecognized" ∉ ["u8", "u16", "u32", "s32", "f32"] →
        conversion_map.lookup "unrecognized" = none ∧
        (decode conversion_map ⟨"unrecognized", 7⟩).2
          = conversion_map ++ [("unrecognized", none)]) ∧
      ("unrecognized" ∈ ["u8", "u16", "u32", "s32", "f32"] →
        (decodeSteps conversion_map [⟨"unrecognized", 7⟩]).lookup "unrecognized" ≠ none ∧
        (decode (decodeSteps conversion_map [⟨"unrecognized", 7⟩]) ⟨"unrecognized", 7⟩).2
          = decodeSteps conversion_map [⟨"unrecognized", 7⟩])) :=
  ⟨by decide,
    (C11_decode_table_amended conversion_map [] 7 "unrecognized" (by decide)).2.1 rfl,
    (C11_decode_table_amended (conversion_map ++ [("unrecognized", none)]) [] 7
      "unrecognized" (by decide)).1 (by
        have h : (conversion_map ++ [("unrecognized", none)]).lookup "unrecognized"
            = some none := rfl
        rw [h]
        exact Option.some_ne_none _),
    rfl,
    (C11_decode_table_amended conversion_map
      [⟨"unrecognized", 7⟩, ⟨"u8", 0x12345678⟩, ⟨"unrecognized", 9⟩] 7 "unrecognized"
      (by decide)).2.2.2.1,
    ((C11_decode_table_amended conversion_map
      [⟨"unrecognized", 7⟩, ⟨"u8", 0x12345678⟩, ⟨"unrecognized", 9⟩] 7 "u8"
      (by decide)).2.2.2.2.2 (by decide)).2,
    C11_decode_table_amended conversion_map [⟨"unrecognized", 7⟩] 7 "unrecognized"
      (by decide)⟩

/-! ## Word Packer: groups are independent -/

/-- C12: for sequences `a` and `b` with the length of `a` a multiple of 4 (and
fuel for the rounds of `a ++ b`), the packer returns on `a`, on `b` and on
`a ++ b`, and the words of `a ++ b` are the words of `a` followed by the words
of `b`; the `k`-th word of the output is the word of elements `4k..4k+3` alone. -/
theorem C12_packer_append (fuel : Nat) (a b : List Int) (ha : a.length % 4 = 0)
    (hfuel : (a ++ b).length / 4 < fuel) :
    ∃ wa outb, wordPacker fuel a = some ⟨[], wa⟩ ∧ wordPacker fuel b = some outb ∧
      wordPacker fuel (a ++ b) = some ⟨outb.stdout, wa ++ outb.modbus_response⟩ ∧
      ∀ k, k < (a ++ b).length / 4 →
        (wa ++ outb.modbus_response)[k]? = some (packWord ((a ++ b).getD (4 * k) 0)
          ((a ++ b).getD (4 * k + 1) 0) ((a ++ b).getD (4 * k + 2) 0)
          ((a ++ b).getD (4 * k + 3) 0)) := by
  have hlen : (a ++ b).length = a.length + b.length := List.length_append a b
  have hfa : a.length / 4 < fuel := by omega
  have hfb : b.length / 4 < fuel := by omega
  have hmod : (a ++ b).length % 4 = b.length % 4 := by omega
  refine ⟨packGroups a, _, ?_, wordPacker_eq fuel b hfb, ?_, ?_⟩
  · rw [wordPacker_eq fuel a hfa]
    simp [ha]
  · rw [wordPacker_eq fuel (a ++ b) hfuel, packGroups_append a b ha, hmod]
  · intro k hk
    rw [← packGroups_append a b ha]
    exact packGroups_getElem_opt (a ++ b) k hk

/-- C12 at `a = [1,2,3,4]` and `b = [5,6,7,8,9]`. -/
theorem C12_packer_append_witness :
    wordPacker 3 ([1, 2, 3, 4] ++ [5, 6, 7, 8, 9])
      = some ⟨[WARNING], [0x01020304] ++ [0x05060708]⟩ ∧
    [1, 2, 3, (4 : Int)].length % 4 = 0 ∧
    ([1, 2, 3, (4 : Int)] ++ [5, 6, 7, 8, 9]).length / 4 < 3 ∧
    ∃ wa outb, wordPacker 3 [1, 2, 3, 4] = some ⟨[], wa⟩ ∧
      wordPacker 3 [5, 6, 7, 8, 9] = some outb ∧
      wordPacker 3 ([1, 2, 3, 4] ++ [5, 6, 7, 8, 9])
        = some ⟨outb.stdout, wa ++ outb.modbus_response⟩ ∧
      ∀ k, k < ([1, 2, 3, (4 : Int)] ++ [5, 6, 7, 8, 9]).length / 4 →
        (wa ++ outb.modbus_response)[k]?
          = some (packWord (([1, 2, 3, (4 : Int)] ++ [5, 6, 7, 8, 9]).getD (4 * k) 0)
              (([1, 2, 3, (4 : Int)] ++ [5, 6, 7, 8, 9]).getD (4 * k + 1) 0)
              (([1, 2, 3, (4 : Int)] ++ [5, 6, 7, 8, 9]).getD (4 * k + 2) 0)
              (([1, 2, 3, (4 : Int)] ++ [5, 6, 7, 8, 9]).getD (4 * k + 3) 0)) :=
  ⟨by decide, by decide, by decide,
    C12_packer_append 3 [1, 2, 3, 4] [5, 6, 7, 8, 9] (by decide) (by decide)⟩

/-- C13: for every group of four non-negative integers (and fuel for the one
round) the packed word is `(e0*2^24 + e1*2^16 + e2*2^8 + e3) mod 2^32`, the
elements being added unmasked; the group `(0,0,1,256)` packs to `0x00000200`,
whose byte in bits 8-15 is 2 and not the low 8 bits of its own element 1. -/
theorem C13_packer_unmasked (fuel : Nat) (e0 e1 e2 e3 : Int)
    (_h0 : 0 ≤ e0) (_h1 : 0 ≤ e1) (_h2 : 0 ≤ e2) (_h3 : 0 ≤ e3) (hfuel : 1 < fuel) :
    (∃ w, wordPacker fuel [e0, e1, e2, e3] = some ⟨[], [w]⟩ ∧
      (w : Int) = (e0 * 2 ^ 24 + e1 * 2 ^ 16 + e2 * 2 ^ 8 + e3) % 2 ^ 32) ∧
    (∃ w, wordPacker fuel [0, 0, 1, 256] = some ⟨[], [w]⟩ ∧ w = 0x00000200 ∧
      (w >>> 8) &&& 0xFF = 2 ∧ (w >>> 8) &&& 0xFF ≠ (1 : Int).toNat &&& 0xFF) := by
  refine ⟨⟨packWord e0 e1 e2 e3, ?_, ?_⟩, ⟨0x00000200, ?_, rfl, by decide, by decide⟩⟩
  · rw [wordPacker_eq fuel _ (by simpa using hfuel)]
    simp [packGroups]
  · simp only [packWord, toUInt32]
    omega
  · rw [wordPacker_eq fuel _ (by simpa using hfuel)]
    decide

/-- C13 at the group `(0,0,1,256)`, which packs to `0x00000200`. -/
theorem C13_packer_unmasked_witness :
    wordPacker 2 [0, 0, 1, 256] = some ⟨[], [0x00000200]⟩ ∧
    (0 : Int) ≤ 0 ∧ (0 : Int) ≤ 1 ∧ (0 : Int) ≤ 256 ∧ 1 < 2 ∧
    (∃ w, wordPacker 2 [0, 0, 1, 256] = some ⟨[], [w]⟩ ∧
      (w : Int) = ((0 : Int) * 2 ^ 24 + 0 * 2 ^ 16 + 1 * 2 ^ 8 + 256) % 2 ^ 32) ∧
    (∃ w, wordPacker 2 [0, 0, 1, 256] = some ⟨[], [w]⟩ ∧ w = 0x00000200 ∧
      (w >>> 8) &&& 0xFF = 2 ∧ (w >>> 8) &&& 0xFF ≠ (1 : Int).toNat &&& 0xFF) :=
  ⟨by decide, by decide, by decide, by decide, by decide,
    C13_packer_unmasked 2 0 0 1 256 (by decide) (by decide) (by decide) (by decide) (by decide)⟩

/-! ## Word Packer: round trip -/

theorem unpackWord_packWord (e0 e1 e2 e3 : Int) (h0 : 0 ≤ e0 ∧ e0 ≤ 255)
    (h1 : 0 ≤ e1 ∧ e1 ≤ 255) (h2 : 0 ≤ e2 ∧ e2 ≤ 255) (h3 : 0 ≤ e3 ∧ e3 ≤ 255) :
    unpackWord (packWord e0 e1 e2 e3) = [e0, e1, e2, e3] := by
  have hw := packWord_bytes e0 e1 e2 e3 h0 h1 h2 h3
  simp only [unpackWord, Nat.shiftRight_eq_div_pow, land_low8]
  generalize packWord e0 e1 e2 e3 = n at hw
  simp only [List.cons.injEq, and_true]
  refine ⟨?_, ?_, ?_, ?_⟩ <;> omega

theorem orWord_eq_packWord (e0 e1 e2 e3 : Int) (h0 : 0 ≤ e0 ∧ e0 ≤ 255)
    (h1 : 0 ≤ e1 ∧ e1 ≤ 255) (h2 : 0 ≤ e2 ∧ e2 ≤ 255) (h3 : 0 ≤ e3 ∧ e3 ≤ 255) :
    orWord e0 e1 e2 e3 = packWord e0 e1 e2 e3 := by
  have hw := packWord_bytes e0 e1 e2 e3 h0 h1 h2 h3
  generalize packWord e0 e1 e2 e3 = n at hw
  simp only [orWord, Nat.shiftLeft_eq]
  have s1 : 2 ^ 24 * e0.toNat + e1.toNat * 2 ^ 16 = 2 ^ 24 * e0.toNat ||| e1.toNat * 2 ^ 16 :=
    Nat.mul_add_lt_is_or (by omega) _
  have s2 : 2 ^ 16 * (256 * e0.toNat + e1.toNat) + e2.toNat * 2 ^ 8
      = 2 ^ 16 * (256 * e0.toNat + e1.toNat) ||| e2.toNat * 2 ^ 8 :=
    Nat.mul_add_lt_is_or (by omega) _
  have s3 : 2 ^ 8 * (65536 * e0.toNat + 256 * e1.toNat + e2.toNat) + e3.toNat
      = 2 ^ 8 * (65536 * e0.toNat + 256 * e1.toNat + e2.toNat) ||| e3.toNat :=
    Nat.mul_add_lt_is_or (by omega) _
  have r1 : e0.toNat * 2 ^ 24 ||| e1.toNat * 2 ^ 16
      = 2 ^ 16 * (256 * e0.toNat + e1.toNat) := by
    rw [Nat.mul_comm e0.toNat, ← s1]; omega
  have r2 : 2 ^ 16 * (256 * e0.toNat + e1.toNat) ||| e2.toNat * 2 ^ 8
      = 2 ^ 8 * (65536 * e0.toNat + 256 * e1.toNat + e2.toNat) := by
    rw [← s2]; omega
  rw [r1, r2, ← s3]
  omega

theorem unpackWords_packGroups (values : List Int) (hbytes : AllBytes values)
    (hlen : values.length % 4 = 0) : unpackWords (packGroups values) = values := by
  induction values using packGroups.induct with
  | case1 e0 e1 e2 e3 rest ih =>
      have hr : rest.length % 4 = 0 := by
        simp only [List.length_cons] at hlen
        omega
      have hb : AllBytes rest := by
        intro e he
        exact hbytes e (by simp [he])
      rw [packGroups, unpackWords, ih hb hr,
        unpackWord_packWord e0 e1 e2 e3 (hbytes e0 (by simp)) (hbytes e1 (by simp))
          (hbytes e2 (by simp)) (hbytes e3 (by simp))]
      rfl
  | case2 l hl =>
      match l, hl, hlen with
      | [], _, _ => rfl
      | [_], _, h => simp at h
      | [_, _], _, h => simp at h
      | [_, _, _], _, h => simp at h
      | e0 :: e1 :: e2 :: e3 :: rest, hl, _ => exact absurd rfl (hl e0 e1 e2 e3 rest)

/-- C14: for a sequence of bytes whose length is a multiple of 4 (and fuel for
its rounds), splitting each packed word into its four bytes, most significant
first, and concatenating gives back the sequence; so two such sequences with
the same packed words are equal, and each word is the bitwise OR of its
shifted elements. -/
theorem C14_packer_round_trip (fuel : Nat) (values : List Int)
    (hbytes : AllBytes values) (hlen : values.length % 4 = 0)
    (hfuel : values.length / 4 < fuel) :
    ∃ words, wordPacker fuel values = some ⟨[], words⟩ ∧
      unpackWords words = values ∧
      (∀ fuel2 values2, AllBytes values2 → values2.length % 4 = 0 →
        values2.length / 4 < fuel2 → wordPacker fuel2 values2 = some ⟨[], words⟩ →
        values2 = values) ∧
      ∀ k, k < values.length / 4 →
        words[k]? = some (orWord (values.getD (4 * k) 0) (values.getD (4 * k + 1) 0)
          (values.getD (4 * k + 2) 0) (values.getD (4 * k + 3) 0)) := by
  refine ⟨packGroups values, ?_, unpackWords_packGroups values hbytes hlen, ?_, ?_⟩
  · rw [wordPacker_eq fuel values hfuel]
    simp [hlen]
  · intro fuel2 values2 hb2 hl2 hf2 heq
    rw [wordPacker_eq fuel2 values2 hf2] at heq
    have hw : packGroups values2 = packGroups values := by
      injection heq with heq
      injection heq
    rw [← unpackWords_packGroups values2 hb2 hl2, hw,
      unpackWords_packGroups values hbytes hlen]
  · intro k hk
    rw [packGroups_getElem_opt values k hk,
      orWord_eq_packWord _ _ _ _ (getD_bytes values hbytes _) (getD_bytes values hbytes _)
        (getD_bytes values hbytes _) (getD_bytes values hbytes _)]

/-- C14 at `[200,1,2,3,4,5,6,7]`: the two packed words split back into the eight bytes. -/
theorem C14_packer_round_trip_witness :
    unpackWords [0xC8010203, 0x04050607] = [200, 1, 2, 3, 4, 5, 6, 7] ∧
    AllBytes [200, 1, 2, 3, 4, 5, 6, 7] ∧
    ∃ words, wordPacker 3 [200, 1, 2, 3, 4, 5, 6, 7] = some ⟨[], words⟩ ∧
      unpackWords words = [200, 1, 2, 3, 4, 5, 6, 7] ∧
      (∀ fuel2 values2, AllBytes values2 → values2.length % 4 = 0 →
        values2.length / 4 < fuel2 → wordPacker fuel2 values2 = some ⟨[], words⟩ →
        values2 = [200, 1, 2, 3, 4, 5, 6, 7]) ∧
      ∀ k, k < [200, 1, 2, 3, 4, 5, 6, (7 : Int)].length / 4 →
        words[k]? = some (orWord ([200, 1, 2, 3, 4, 5, 6, (7 : Int)].getD (4 * k) 0)
          ([200, 1, 2, 3, 4, 5, 6, (7 : Int)].getD (4 * k + 1) 0)
          ([200, 1, 2, 3, 4, 5, 6, (7 : Int)].getD (4 * k + 2) 0)
          ([200, 1, 2, 3, 4, 5, 6, (7 : Int)].getD (4 * k + 3) 0)) :=
  ⟨by decide, by unfold AllBytes; decide,
    C14_packer_round_trip 3 [200, 1, 2, 3, 4, 5, 6, 7] (by unfold AllBytes; decide)
      (by decide) (by decide)⟩

/-! ## Driver -/

theorem registers_isSome_iff (modbus_response : List Nat) :
    (registers modbus_response).isSome ↔ 5 ≤ modbus_response.length := by
  match modbus_response with
  | [] => simp [registers]
  | [_] => simp [registers]
  | [_, _] => simp [registers]
  | [_, _, _] => simp [registers]
  | [_, _, _, _] => simp [registers]
  | _ :: _ :: _ :: _ :: _ :: rest => simp [registers]

theorem accesses_in_bounds_iff (modbus_response : List Nat) :
    (∀ i, i < 5 → (modbus_response[i]?).isSome) ↔ 5 ≤ modbus_response.length := by
  constructor
  · intro h
    have h4 := h 4 (by omega)
    rw [Option.isSome_iff_exists] at h4
    obtain ⟨a, ha⟩ := h4
    have := (List.getElem?_eq_some.mp ha).1
    omega
  · intro h i hi
    rw [List.getElem?_eq_getElem (by omega)]
    rfl

/-- C15: for the sample sequence 1..20 (and fuel for the five rounds) the
packer writes no warning and returns exactly the five words `0x01020304`,
`0x05060708`, `0x090A0B0C`, `0x0D0E0F10`, `0x11121314`, so the five accesses
`modbus_response[0]` to `modbus_response[4]` are in bounds and `registers` is
built; for an arbitrary sequence the five accesses are all in bounds if and
only if it has at least 20 elements. -/
theorem C15_driver_index_safety (fuel : Nat) (values : List Int)
    (hfuel : values.length / 4 < fuel) (hfuel5 : 5 < fuel) :
    wordPacker fuel sample_values
      = some ⟨[], [0x01020304, 0x05060708, 0x090A0B0C, 0x0D0E0F10, 0x11121314]⟩ ∧
    (∀ i, i < 5 →
      ([0x01020304, 0x05060708, 0x090A0B0C, 0x0D0E0F10, 0x11121314] : List Nat)[i]?.isSome) ∧
    (registers [0x01020304, 0x05060708, 0x090A0B0C, 0x0D0E0F10, 0x11121314]).isSome ∧
    ∃ out, wordPacker fuel values = some out ∧
      ((∀ i, i < 5 → (out.modbus_response[i]?).isSome) ↔ 20 ≤ values.length) ∧
      ((registers out.modbus_response).isSome ↔ 20 ≤ values.length) := by
  have hsample : sample_values.length = 20 := rfl
  refine ⟨?_, ?_, rfl, _, wordPacker_eq fuel values hfuel, ?_, ?_⟩
  · rw [wordPacker_eq fuel sample_values (by rw [hsample]; omega)]
    decide
  · rw [accesses_in_bounds_iff]
    decide
  · rw [accesses_in_bounds_iff, packGroups_length]
    omega
  · rw [registers_isSome_iff, packGroups_length]
    omega

/-- C15 with the sample sequence itself as the arbitrary sequence and fuel 6. -/
theorem C15_driver_index_safety_witness :
    sample_values.length / 4 < 6 ∧ 5 < 6 ∧
    wordPacker 6 sample_values
      = some ⟨[], [0x01020304, 0x05060708, 0x090A0B0C, 0x0D0E0F10, 0x11121314]⟩ ∧
    (∀ i, i < 5 →
      ([0x01020304, 0x05060708, 0x090A0B0C, 0x0D0E0F10, 0x11121314] : List Nat)[i]?.isSome) ∧
    (registers [0x01020304, 0x05060708, 0x090A0B0C, 0x0D0E0F10, 0x11121314]).isSome ∧
    ∃ out, wordPacker 6 sample_values = some out ∧
      ((∀ i, i < 5 → (out.modbus_response[i]?).isSome) ↔ 20 ≤ sample_values.length) ∧
      ((registers out.modbus_response).isSome ↔ 20 ≤ sample_values.length) :=
  ⟨by decide, by decide, C15_driver_index_safety 6 sample_values (by decide) (by decide)⟩

/-- C16: for the sample sequence 1..20 and the tag order u8, u16, u32, s32, f32
(and fuel for the five rounds) each of the five tags is found in the dispatch
table with a conversion, and the driver returns exactly five decoded values in
register order: unsigned-8 4, unsigned-16 0, unsigned-32 151653132,
signed-32 219025168 and the float with bit pattern `0x11121314`; the dispatch
table is left as it was. -/
theorem C16_driver_end_to_end (fuel : Nat) (hfuel : 5 < fuel) :
    (∀ tag ∈ [FORMAT_UINT8, FORMAT_UINT16, FORMAT_UINT32, FORMAT_SINT32, FORMAT_FLOAT],
      ∃ f, conversion_map.lookup tag = some (some f)) ∧
    mainDecode fuel sample_values
      = some (Except.ok [converted_value_t.uint8 4, converted_value_t.uint16 0,
          converted_value_t.uint32 151653132, converted_value_t.int32 219025168,
          converted_value_t.float 0x11121314], conversion_map) := by
  have hsample : sample_values.length = 20 := rfl
  constructor
  · intro tag htag
    simp only [List.mem_cons, List.mem_singleton, List.not_mem_nil, or_false] at htag
    rcases htag with h | h | h | h | h <;> subst h <;> exact ⟨_, rfl⟩
  · simp only [mainDecode, wordPacker_eq fuel sample_values (by rw [hsample]; omega)]
    rfl

/-- C16 with fuel 6. -/
theorem C16_driver_end_to_end_witness :
    5 < 6 ∧
    (∀ tag ∈ [FORMAT_UINT8, FORMAT_UINT16, FORMAT_UINT32, FORMAT_SINT32, FORMAT_FLOAT],
      ∃ f, conversion_map.lookup tag = some (some f)) ∧
    mainDecode 6 sample_values
      = some (Except.ok [converted_value_t.uint8 4, converted_value_t.uint16 0,
          converted_value_t.uint32 151653132, converted_value_t.int32 219025168,
          converted_value_t.float 0x11121314], conversion_map) :=
  ⟨by decide, C16_driver_end_to_end 6 (by decide)⟩

end ModbusEx
